import Mathlib

/-!
Verification of the panoramisk correlation layer (`panoramisk/actions.py`).

The development shallowly embeds the `Action` (Request) and `Command`
classes of `actions.py`.  The `utils` module (the case-insensitive field
container, the id generator and the line terminator) is not part of the
sources; those collaborators are modelled from the specification, each
such definition is marked `Modelled from the spec:` in its doc comment.

Python strings are embedded as Lean `String`; the string methods used by
the source (`lower`, `startswith`, `endswith`, substring containment)
are given executable definitions over the character list so that all
theorems can be evaluated on concrete inputs.
-/

namespace Panoramisk

/-- ASCII lowercasing of a single character, the character-level piece of
Python's `str.lower` as used on protocol text. -/
def charLower (c : Char) : Char :=
  if 65 ≤ c.toNat ∧ c.toNat ≤ 90 then Char.ofNat (c.toNat + 32) else c

/-- Embedding of Python's `str.lower` on protocol (ASCII) text. -/
def strLower (s : String) : String :=
  String.mk (s.data.map charLower)

/-- Embedding of Python's `str.startswith`. -/
def strStartsWith (s p : String) : Bool :=
  decide (s.data.take p.data.length = p.data)

/-- Embedding of Python's `str.endswith`. -/
def strEndsWith (s p : String) : Bool :=
  decide (s.data.drop (s.data.length - p.data.length) = p.data)

/-- Embedding of Python's substring containment test `sub in s`. -/
def strContains (s sub : String) : Bool :=
  (List.range (s.data.length + 1)).any
    (fun i => decide ((s.data.drop i).take sub.data.length = sub.data))

/-- A value stored under a key of the field container: the source only
distinguishes scalars from lists/tuples (`isinstance(v, (list, tuple))`). -/
inductive FieldValue where
  | str : String → FieldValue
  | list : List String → FieldValue
deriving DecidableEq, Repr

/-- Python falsiness of a field value (`'' `and `[]` are falsy), used by
`Command.action_id`'s `self.actionid or None`. -/
def FieldValue.isFalsy : FieldValue → Bool
  | .str s => decide (s = "")
  | .list l => l.isEmpty

/-- The Request's field mapping, as an association list in insertion order. -/
abbrev Fields : Type := List (String × FieldValue)

/-- Modelled from the spec: case-insensitive key lookup of the Field
Container (`utils.CaseInsensitiveDict`, not under `src/`): "case-insensitive
key lookup/assignment" (§6). -/
def fieldsGet (fs : Fields) (k : String) : Option FieldValue :=
  (fs.find? (fun p => strLower p.1 = strLower k)).map Prod.snd

/-- Modelled from the spec: the Field Container's case-insensitive
"contains key" test (§6). -/
def fieldsContains (fs : Fields) (k : String) : Bool :=
  fs.any (fun p => strLower p.1 = strLower k)

/-- Modelled from the spec: case-insensitive assignment of the Field
Container (§6); an existing binding for the key is replaced, a new key is
appended. -/
def setField (fs : Fields) (k : String) (v : FieldValue) : Fields :=
  if fieldsContains fs k then
    fs.map (fun p => if strLower p.1 = strLower k then (k, v) else p)
  else fs ++ [(k, v)]

/-- Modelled from the spec: the Correlation-ID Issuer (`utils.IdGenerator`,
not under `src/`).  Ids have the format
`category/session-token/epoch/sequence` (§3); `generation` is the epoch and
`seq` counts the ids issued so far in the current epoch. -/
structure IdGenerator where
  category : String
  uid : String
  generation : Nat
  seq : Nat
deriving DecidableEq, Repr

/-- Modelled from the spec: the id string the issuer produces next
(sequence numbers start at 1, §3). -/
def IdGenerator.nextId (g : IdGenerator) : String :=
  g.category ++ "/" ++ g.uid ++ "/" ++ toString g.generation ++ "/" ++
    toString (g.seq + 1)

/-- Modelled from the spec: issue a fresh id, advancing the sequence
counter (§4.1). -/
def IdGenerator.next (g : IdGenerator) : String × IdGenerator :=
  (g.nextId, { g with seq := g.seq + 1 })

/-- Modelled from the spec: the Message collaborator (§6) is produced
outside `src/`.  It must expose an `event` name, an optional `subevent`,
an optional `response` status, a free-text `message` attribute and an
`EventList` key lookup.  Attributes the spec marks optional are `Option`s
compared against concrete values; the `message` attribute is an `Option`
as well so that reading it on a value that does not carry one is
undefined rather than defaulted. -/
structure Message where
  event : String
  subevent : Option String
  response : Option String
  message : Option String
  eventList : Option String
deriving DecidableEq, Repr

/-- The single-assignment result cell of a Request: `asyncio.Future`'s
resolved value is either the lone message or the ordered buffered
sequence. -/
inductive ActionResult where
  | single : Message → ActionResult
  | sequence : List Message → ActionResult
deriving DecidableEq, Repr

/-- State of `Action` (`actions.py`): the field mapping, the `as_list`
override popped in `__init__`, the response buffer, the stream cursor
`responses_index`, and the future's result cell (`none` = pending). -/
structure Action where
  fields : Fields
  as_list : Option Bool
  responses : List Message
  responses_index : Nat
  result : Option ActionResult
deriving DecidableEq, Repr

/-- `Action.__init__`: assign an `ActionID` via the issuer when no
`actionid` key is present (case-insensitively), start with an empty
buffer, cursor 0 and a pending future.  The class-level issuer is passed
and returned explicitly. -/
def Action.init (fields : Fields) (as_list : Option Bool)
    (g : IdGenerator) : Action × IdGenerator :=
  if fieldsContains fields "actionid" then
    ({ fields := fields, as_list := as_list, responses := [],
       responses_index := 0, result := none }, g)
  else
    let (newId, g') := g.next
    ({ fields := setField fields "ActionID" (FieldValue.str newId),
       as_list := as_list, responses := [], responses_index := 0,
       result := none }, g')

/-- Modelled from the spec: attribute access on the field container
(`self.actionid` etc.); an unset key reads as the empty string, matching
the accessors' "empty/absent if none is set" contract. -/
def Action.attr (a : Action) (name : String) : FieldValue :=
  (fieldsGet a.fields name).getD (FieldValue.str "")

/-- `Action.id`: `return self.actionid`. -/
def Action.id (a : Action) : FieldValue := a.attr "actionid"

/-- `Action.action_id = id` (a class-level alias in the source). -/
def Action.action_id (a : Action) : FieldValue := Action.id a

/-- Modelled from the spec: `utils.EOL`, the protocol's line terminator. -/
def EOL : String := "\r\n"

/-- The loop body of `Action.__str__`: one `Key: value` line per scalar
field, one line per element for a list-valued field. -/
def wireLines : List (String × FieldValue) → List String
  | [] => []
  | (k, FieldValue.str v) :: rest => (k ++ ": " ++ v) :: wireLines rest
  | (k, FieldValue.list vs) :: rest =>
      vs.map (fun i => k ++ ": " ++ i) ++ wireLines rest

/-- Lexicographic comparison of character lists by code point, the order
underlying the sorted serialization. -/
def listLe : List Char → List Char → Bool
  | [], _ => true
  | _ :: _, [] => false
  | a :: as, b :: bs =>
    if a.toNat < b.toNat then true
    else if b.toNat < a.toNat then false
    else listLe as bs

/-- Case-insensitive key order on field bindings. -/
def fieldLe (p q : String × FieldValue) : Bool :=
  listLe (strLower p.1).data (strLower q.1).data

/-- The key order as a decidable relation, used for sorting. -/
def fieldLeP (p q : String × FieldValue) : Prop := fieldLe p q = true

instance : DecidableRel fieldLeP := fun p q =>
  inferInstanceAs (Decidable (fieldLe p q = true))

/-- Modelled from the spec: `sorted(self.items())` iterates the field
container's bindings in case-insensitive sorted key order (§4.2, §6). -/
def sortFields (fs : Fields) : List (String × FieldValue) :=
  List.insertionSort fieldLeP fs

/-- `utils.EOL.join` on the accumulated lines. -/
def joinEOL : List String → String
  | [] => ""
  | [x] => x
  | x :: y :: rest => x ++ EOL ++ joinEOL (y :: rest)

/-- `Action.__str__`: emit the sorted lines, append a final `EOL` entry
and join everything with `EOL`. -/
def Action.toWireText (a : Action) : String :=
  joinEOL (wireLines (sortFields a.fields) ++ [EOL])

/-- `Action.multi`.  `resp.message.lower()` is evaluated before the
`as_list` override is consulted, exactly as in the source; the value is
`none` (undefined) when the buffer is empty (`responses[0]` raises) or the
first response carries no `message` attribute. -/
def Action.multi (a : Action) : Option Bool :=
  match a.responses.head? with
  | none => none
  | some resp =>
    match resp.message with
    | none => none
    | some rawMsg =>
      let msg := strLower rawMsg
      some (
        match a.as_list with
        | some b => b
        | none =>
          if resp.subevent = some "Start" then true
          else if resp.eventList = some "start" then true
          else if strContains msg "will follow" then true
          else if strStartsWith msg "added" ∧ strEndsWith msg "to queue" then
            true
          else if strEndsWith msg "successfully queued" ∧
              fieldsGet a.fields "async" ≠ some (FieldValue.str "false") then
            true
          else false)

/-- `Action.completed`.  Only the final branch consults `self.multi`, so
the value is defined whenever one of the first three tests fires even if
`multi` would be undefined. -/
def Action.completed (a : Action) : Option Bool :=
  match a.responses.getLast? with
  | none => none
  | some resp =>
    if strEndsWith resp.event "Complete" then some true
    else if resp.subevent = some "End" ∨ resp.subevent = some "Exec" then
      some true
    else if resp.response = some "Success" ∨ resp.response = some "Error" ∨
        resp.response = some "Fail" ∨ resp.response = some "Failure" then
      some true
    else
      match a.multi with
      | none => none
      | some b => some (!b)

/-- Outcome of one `add_message` call: either the evaluation of the
classification raised (undefined attribute access), or the Python return
value — `some true` ("completed"), `some false` ("not yet completed") or
`none` (the implicit `None`, a no-op). -/
inductive FeedReturn where
  | raised : FeedReturn
  | value : Option Bool → FeedReturn
deriving DecidableEq, Repr

/-- `Action.add_message`: append unconditionally, evaluate `multi`, then
resolve the future according to `completed`/`multi`/buffer length when
still pending.  The state component carries the append even on the raised
path, as the Python append precedes the classification. -/
def Action.add_message (a : Action) (m : Message) : Action × FeedReturn :=
  let a1 : Action := { a with responses := a.responses ++ [m] }
  match a1.multi with
  | none => (a1, FeedReturn.raised)
  | some multi =>
    match a1.completed with
    | none => (a1, FeedReturn.raised)
    | some c =>
      if c ∧ a1.result = none then
        if multi ∧ 1 < a1.responses.length then
          ({ a1 with result := some (ActionResult.sequence a1.responses) },
            FeedReturn.value (some true))
        else if ¬multi then
          match a1.responses with
          | [] => (a1, FeedReturn.raised)
          | r0 :: _ =>
            ({ a1 with result := some (ActionResult.single r0) },
              FeedReturn.value (some true))
        else (a1, FeedReturn.value (some false))
      else (a1, FeedReturn.value none)

/-- One evaluation of the loop body of `Action.__anext__`: yield the
message at the cursor, or signal end-of-stream, or suspend (the
`asyncio.sleep` branch, which leaves the state unchanged). -/
inductive StreamStep where
  | yield : Message → StreamStep
  | stop : StreamStep
  | wait : StreamStep
deriving DecidableEq, Repr

/-- `Action.__anext__` as a single step on the state. -/
def Action.anext (a : Action) : StreamStep × Action :=
  if h : a.responses_index < a.responses.length then
    (StreamStep.yield (a.responses.get ⟨a.responses_index, h⟩),
      { a with responses_index := a.responses_index + 1 })
  else if a.result.isSome then (StreamStep.stop, a)
  else (StreamStep.wait, a)

/-- Feed a list of messages in order (repeated `add_message`). -/
def Action.feedAll (a : Action) (ms : List Message) : Action :=
  ms.foldl (fun b m => (b.add_message m).1) a

/-- Collect the messages produced by up to `n` consecutive stream steps;
a step that does not yield ends the collection. -/
def Action.streamRun : Nat → Action → List Message
  | 0, _ => []
  | Nat.succ n, a =>
    match a.anext with
    | (StreamStep.yield m, a') => m :: Action.streamRun n a'
    | _ => []

/-- An operation performed on a Request after construction: a `feed`
(message delivery) or a stream step. -/
inductive Op where
  | feed : Message → Op
  | next : Op
deriving Repr

/-- Apply one operation to the state. -/
def Action.applyOp (a : Action) : Op → Action
  | Op.feed m => (a.add_message m).1
  | Op.next => (a.anext).2

/-- Apply a sequence of operations to the state. -/
def Action.applyOps (a : Action) (ops : List Op) : Action :=
  ops.foldl Action.applyOp a

/-- `Command.__init__`: run `Action.__init__`, then set `Action` to
`"Command"` when absent, then assign a `CommandID` from the command-category
issuer when absent.  Both issuers are passed and returned explicitly. -/
def Command.init (fields : Fields) (as_list : Option Bool)
    (ag cg : IdGenerator) : Action × IdGenerator × IdGenerator :=
  let (a, ag') := Action.init fields as_list ag
  let f1 := if fieldsContains a.fields "action" then a.fields
            else setField a.fields "Action" (FieldValue.str "Command")
  if fieldsContains f1 "commandid" then
    ({ a with fields := f1 }, ag', cg)
  else
    let (cid, cg') := cg.next
    ({ a with fields := setField f1 "CommandID" (FieldValue.str cid) },
      ag', cg')

/-- `Command.id`: `return self.commandid`. -/
def Command.id (a : Action) : FieldValue := a.attr "commandid"

/-- `Command.action_id`: `return self.actionid or None`. -/
def Command.action_id (a : Action) : Option FieldValue :=
  let v := a.attr "actionid"
  if v.isFalsy then none else some v

/-! ### Concrete values used by the witnesses -/

/-- A freshly reset action-category issuer (doctest scenario). -/
def genA : IdGenerator :=
  { category := "action", uid := "myuuid", generation := 1, seq := 0 }

/-- A freshly reset command-category issuer (doctest scenario). -/
def genC : IdGenerator :=
  { category := "command", uid := "myuuid", generation := 1, seq := 0 }

/-- A lone `Response: Success` message. -/
def msgSuccess : Message :=
  { event := "", subevent := none, response := some "Success",
    message := some "", eventList := none }

/-- A free-text `Added to queue` reply (multi-mode signal). -/
def msgAdded : Message :=
  { event := "", subevent := none, response := none,
    message := some "Added to queue", eventList := none }

/-- A `SubEvent: Start` message opening a multi-message reply. -/
def msgStart : Message :=
  { event := "OriginateResponse", subevent := some "Start", response := none,
    message := some "", eventList := none }

/-- A terminating event whose name ends in `Complete`. -/
def msgComplete : Message :=
  { event := "StatusComplete", subevent := none, response := none,
    message := some "", eventList := none }

/-- A message that carries no free-text `message` attribute. -/
def msgNoText : Message :=
  { event := "", subevent := none, response := none,
    message := none, eventList := none }

/-- A pending `{'Action': 'Status'}` request with an empty buffer. -/
def actPending : Action :=
  { fields := [("Action", FieldValue.str "Status"),
               ("ActionID", FieldValue.str "action/myuuid/1/1")],
    as_list := none, responses := [], responses_index := 0, result := none }

/-! ### Helper lemmas -/

theorem listLe_nil_left (l : List Char) : listLe [] l = true := by
  unfold listLe
  rfl

theorem listLe_cons_cons (a b : Char) (as bs : List Char) :
    listLe (a :: as) (b :: bs) =
      if a.toNat < b.toNat then true
      else if b.toNat < a.toNat then false
      else listLe as bs := rfl

theorem listLe_total : ∀ a b : List Char, listLe a b = true ∨ listLe b a = true
  | [], _ => Or.inl (listLe_nil_left _)
  | _ :: _, [] => Or.inr (listLe_nil_left _)
  | a :: as, b :: bs => by
    rw [listLe_cons_cons, listLe_cons_cons]
    by_cases h1 : a.toNat < b.toNat
    · left
      simp [h1]
    · by_cases h2 : b.toNat < a.toNat
      · right
        simp [h2]
      · rcases listLe_total as bs with h | h <;> simp [h1, h2, h]

theorem listLe_trans :
    ∀ a b c : List Char, listLe a b = true → listLe b c = true →
      listLe a c = true
  | [], _, c, _, _ => listLe_nil_left c
  | _ :: _, [], _, hab, _ => by simp [listLe] at hab
  | _ :: _, _ :: _, [], _, hbc => by simp [listLe] at hbc
  | a :: as, b :: bs, c :: cs, hab, hbc => by
    rw [listLe_cons_cons] at hab hbc ⊢
    split_ifs at hab hbc ⊢ <;>
      first
        | rfl
        | omega
        | exact listLe_trans as bs cs hab hbc

theorem listLe_antisymm :
    ∀ a b : List Char, listLe a b = true → listLe b a = true → a = b
  | [], [], _, _ => rfl
  | [], _ :: _, _, hba => by simp [listLe] at hba
  | _ :: _, [], hab, _ => by simp [listLe] at hab
  | a :: as, b :: bs, hab, hba => by
    rw [listLe_cons_cons] at hab hba
    by_cases h1 : a.toNat < b.toNat
    · rw [if_neg (show ¬b.toNat < a.toNat by omega), if_pos h1] at hba
      exact absurd hba (by simp)
    · by_cases h2 : b.toNat < a.toNat
      · rw [if_neg h1, if_pos h2] at hab
        exact absurd hab (by simp)
      · rw [if_neg h1, if_neg h2] at hab
        rw [if_neg h2, if_neg h1] at hba
        have hn : a.toNat = b.toNat := by omega
        have hc : a = b := Char.eq_of_val_eq (UInt32.ext hn)
        rw [hc, listLe_antisymm as bs hab hba]

theorem fieldLe_total (p q : String × FieldValue) :
    (fieldLe p q || fieldLe q p) = true := by
  unfold fieldLe
  rcases listLe_total (strLower p.1).data (strLower q.1).data with h | h <;>
    simp [h]

theorem fieldLe_trans (p q r : String × FieldValue)
    (h1 : fieldLe p q = true) (h2 : fieldLe q r = true) :
    fieldLe p r = true :=
  listLe_trans _ _ _ h1 h2

theorem fieldLe_antisymm_key (p q : String × FieldValue)
    (h1 : fieldLe p q = true) (h2 : fieldLe q p = true) :
    strLower p.1 = strLower q.1 :=
  String.ext (listLe_antisymm _ _ h1 h2)

/-- Two sorted association lists with pairwise-distinct lowercased keys
that are permutations of each other are equal. -/
theorem sorted_nodup_eq :
    ∀ (l₁ l₂ : List (String × FieldValue)), l₁.Perm l₂ →
      l₁.Pairwise (fun p q => fieldLe p q = true) →
      l₂.Pairwise (fun p q => fieldLe p q = true) →
      (l₁.map (fun p => strLower p.1)).Nodup →
      l₁ = l₂
  | [], l₂, hp, _, _, _ => (List.perm_nil.mp hp.symm).symm
  | a :: t₁, [], hp, _, _, _ => absurd (List.perm_nil.mp hp) (by simp)
  | a :: t₁, b :: t₂, hp, hs₁, hs₂, hnd => by
    by_cases hab : a = b
    · subst hab
      have ht : t₁.Perm t₂ := hp.cons_inv
      have := sorted_nodup_eq t₁ t₂ ht (List.pairwise_cons.mp hs₁).2
        (List.pairwise_cons.mp hs₂).2 (by simpa using (List.nodup_cons.mp hnd).2)
      rw [this]
    · have hbt : b ∈ t₁ := by
        have : b ∈ a :: t₁ := hp.mem_iff.mpr (by simp)
        rcases this with _ | h
        · exact absurd rfl (fun h => hab h.symm)
        · assumption
      have hat : a ∈ t₂ := by
        have : a ∈ b :: t₂ := hp.mem_iff.mp (by simp)
        rcases this with _ | h
        · exact absurd rfl hab
        · assumption
      have h1 : fieldLe a b = true := (List.pairwise_cons.mp hs₁).1 b hbt
      have h2 : fieldLe b a = true := (List.pairwise_cons.mp hs₂).1 a hat
      have hkey : strLower a.1 = strLower b.1 := fieldLe_antisymm_key a b h1 h2
      have hmem : strLower a.1 ∈ t₁.map (fun p => strLower p.1) := by
        rw [hkey]
        exact List.mem_map.mpr ⟨b, hbt, rfl⟩
      exact absurd hmem (List.nodup_cons.mp hnd).1

instance : IsTrans (String × FieldValue) fieldLeP :=
  ⟨fun a b c => fieldLe_trans a b c⟩

instance : IsTotal (String × FieldValue) fieldLeP :=
  ⟨fun a b => by
    rcases Bool.or_eq_true_iff.mp (fieldLe_total a b) with h | h
    · exact Or.inl h
    · exact Or.inr h⟩

theorem sortFields_sorted (fs : Fields) :
    (sortFields fs).Pairwise (fun p q => fieldLe p q = true) :=
  List.sorted_insertionSort fieldLeP fs

theorem sortFields_perm (fs : Fields) : (sortFields fs).Perm fs :=
  List.perm_insertionSort fieldLeP fs

theorem sortFields_congr (fs gs : Fields) (hperm : fs.Perm gs)
    (hnd : (fs.map (fun p => strLower p.1)).Nodup) :
    sortFields fs = sortFields gs :=
  sorted_nodup_eq _ _
    (((sortFields_perm fs).trans hperm).trans (sortFields_perm gs).symm)
    (sortFields_sorted fs) (sortFields_sorted gs)
    (hnd.perm ((sortFields_perm fs).symm.map _))

theorem joinEOL_append_single (l : List String) (x : String) (h : l ≠ []) :
    joinEOL (l ++ [x]) = joinEOL l ++ EOL ++ x := by
  induction l with
  | nil => exact absurd rfl h
  | cons a t ih =>
    cases t with
    | nil => rfl
    | cons b t' =>
      have htail := ih (by simp)
      calc joinEOL ((a :: b :: t') ++ [x])
          = a ++ EOL ++ joinEOL ((b :: t') ++ [x]) := rfl
        _ = a ++ EOL ++ (joinEOL (b :: t') ++ EOL ++ x) := by rw [htail]
        _ = joinEOL (a :: b :: t') ++ EOL ++ x := by
            apply String.ext
            simp [String.data_append, joinEOL]

theorem fieldsGet_append_single (fs : Fields) (k k' : String) (v : FieldValue) :
    fieldsGet (fs ++ [(k, v)]) k' =
      if (fieldsGet fs k').isSome then fieldsGet fs k'
      else if strLower k = strLower k' then some v else none := by
  unfold fieldsGet
  rw [List.find?_append]
  cases hf : (fs.find? (fun p => strLower p.1 = strLower k')) with
  | none =>
    by_cases hk : strLower k = strLower k' <;>
      simp [List.find?, hk, Option.orElse]
  | some p => rfl

theorem fieldsContains_false_get (fs : Fields) (k : String)
    (h : fieldsContains fs k = false) : fieldsGet fs k = none := by
  unfold fieldsContains at h
  unfold fieldsGet
  rw [List.find?_eq_none.mpr]
  · rfl
  · intro p hp
    have := List.any_eq_false.mp h p hp
    simpa using this

theorem fieldsContains_true_get (fs : Fields) (k : String)
    (h : fieldsContains fs k = true) : (fieldsGet fs k).isSome = true := by
  unfold fieldsContains at h
  obtain ⟨p, hp, hpk⟩ := List.any_eq_true.mp h
  unfold fieldsGet
  cases hq : List.find? (fun p => decide (strLower p.1 = strLower k)) fs with
  | none =>
    rw [List.find?_eq_none] at hq
    exact absurd hpk (by simpa using hq p hp)
  | some q => rfl

theorem fieldsContains_append_single (fs : Fields) (k k' : String)
    (v : FieldValue) :
    fieldsContains (fs ++ [(k, v)]) k' =
      (fieldsContains fs k' || decide (strLower k = strLower k')) := by
  unfold fieldsContains
  rw [List.any_append]
  simp [List.any]

theorem nextId_ne_empty (g : IdGenerator) : g.nextId ≠ "" := by
  intro h
  have hd : g.nextId.data = [] := by rw [h]
  unfold IdGenerator.nextId at hd
  simp only [String.data_append] at hd
  simp at hd

theorem nextId_category_ne (g1 g2 : IdGenerator)
    (h1 : g1.category = "action") (h2 : g2.category = "command") :
    g1.nextId ≠ g2.nextId := by
  intro h
  have hd : g1.nextId.data = g2.nextId.data := by rw [h]
  unfold IdGenerator.nextId at hd
  rw [h1, h2] at hd
  simp only [String.data_append] at hd
  simp at hd

theorem add_message_state (a : Action) (m : Message) :
    (a.add_message m).1.responses = a.responses ++ [m] ∧
    (a.add_message m).1.responses_index = a.responses_index ∧
    (a.add_message m).1.fields = a.fields ∧
    (a.add_message m).1.as_list = a.as_list := by
  unfold Action.add_message
  dsimp only
  split <;> try exact ⟨rfl, rfl, rfl, rfl⟩
  split <;> try exact ⟨rfl, rfl, rfl, rfl⟩
  split
  · split
    · exact ⟨rfl, rfl, rfl, rfl⟩
    · split
      · split <;> exact ⟨rfl, rfl, rfl, rfl⟩
      · exact ⟨rfl, rfl, rfl, rfl⟩
  · exact ⟨rfl, rfl, rfl, rfl⟩

theorem add_message_result_stable (a : Action) (m : Message)
    (r : ActionResult) (hr : a.result = some r) :
    (a.add_message m).1.result = some r := by
  unfold Action.add_message
  dsimp only
  split
  · exact hr
  · split
    · exact hr
    · split
      · next hcond =>
        exact absurd (hr ▸ hcond.2) (by simp)
      · exact hr

theorem anext_state (a : Action) :
    ((a.anext).2.responses = a.responses ∧ (a.anext).2.fields = a.fields ∧
     (a.anext).2.result = a.result ∧ (a.anext).2.as_list = a.as_list) ∧
    a.responses_index ≤ (a.anext).2.responses_index ∧
    (a.responses_index ≤ a.responses.length →
      (a.anext).2.responses_index ≤ (a.anext).2.responses.length) := by
  unfold Action.anext
  split
  · next h => exact ⟨⟨rfl, rfl, rfl, rfl⟩, Nat.le_succ _, fun _ => h⟩
  · split <;> exact ⟨⟨rfl, rfl, rfl, rfl⟩, Nat.le_refl _, fun h => h⟩

theorem feedAll_state (ms : List Message) : ∀ a : Action,
    (Action.feedAll a ms).responses = a.responses ++ ms ∧
    (Action.feedAll a ms).responses_index = a.responses_index ∧
    (Action.feedAll a ms).fields = a.fields := by
  induction ms with
  | nil => intro a; simp [Action.feedAll]
  | cons m rest ih =>
    intro a
    have hstep := add_message_state a m
    have hrest := ih (a.add_message m).1
    unfold Action.feedAll at hrest ⊢
    simp only [List.foldl_cons]
    refine ⟨?_, ?_, ?_⟩
    · rw [hrest.1, hstep.1]
      simp
    · rw [hrest.2.1, hstep.2.1]
    · rw [hrest.2.2, hstep.2.2.1]

theorem streamRun_drop : ∀ (n : Nat) (a : Action),
    a.responses_index + n ≤ a.responses.length →
    Action.streamRun n a = (a.responses.drop a.responses_index).take n
  | 0, a, _ => by simp [Action.streamRun]
  | Nat.succ n, a, h => by
    have hlt : a.responses_index < a.responses.length := by omega
    unfold Action.streamRun Action.anext
    rw [dif_pos hlt]
    dsimp only
    have ih := streamRun_drop n
      { a with responses_index := a.responses_index + 1 }
      (by dsimp only; omega)
    dsimp only at ih
    rw [ih, List.drop_eq_getElem_cons hlt, List.take_succ_cons]
    simp [List.get_eq_getElem]

theorem multi_defined (a : Action) (r0 : Message) (rest : List Message)
    (hresp : a.responses = r0 :: rest) (hmsg : r0.message.isSome = true) :
    ∃ b, Action.multi a = some b := by
  unfold Action.multi
  rw [hresp]
  simp only [List.head?_cons]
  obtain ⟨mv, hmv⟩ := Option.isSome_iff_exists.mp hmsg
  rw [hmv]
  exact ⟨_, rfl⟩

theorem completed_defined (a : Action) (b : Bool)
    (hm : Action.multi a = some b) (hne : a.responses ≠ []) :
    ∃ c, Action.completed a = some c := by
  unfold Action.completed
  cases hl : a.responses.getLast? with
  | none => exact absurd (List.getLast?_eq_none_iff.mp hl) hne
  | some rN =>
    rw [hm]
    dsimp only
    split_ifs <;> exact ⟨_, rfl⟩

/-! ### Claim theorems -/

/-- C2: for a Request with a non-empty response buffer (and a first
response carrying a text message), the `multi` classification is true iff
the override forces list mode, or the first response's subevent is
`"Start"`, or its `EventList` field is `"start"`, or its lowercased
message contains `"will follow"`, or starts with `"added"` and ends with
`"to queue"`, or ends with `"successfully queued"` while the Request's
`async` field is not the literal `"false"`; an override forcing single
mode yields false regardless, and absence of override and of all signals
yields false. -/
theorem c2_multi_classification (a : Action) (r0 : Message)
    (rest : List Message) (hresp : a.responses = r0 :: rest)
    (mtext : String) (hmsg : r0.message = some mtext) :
    ∃ b, Action.multi a = some b ∧
      (a.as_list = some false → b = false) ∧
      (a.as_list ≠ some false → (b = true ↔
        (a.as_list = some true ∨ r0.subevent = some "Start" ∨
         r0.eventList = some "start" ∨
         strContains (strLower mtext) "will follow" = true ∨
         (strStartsWith (strLower mtext) "added" = true ∧
           strEndsWith (strLower mtext) "to queue" = true) ∨
         (strEndsWith (strLower mtext) "successfully queued" = true ∧
           fieldsGet a.fields "async" ≠ some (FieldValue.str "false"))))) := by
  unfold Action.multi
  rw [hresp]
  simp only [List.head?_cons]
  rw [hmsg]
  dsimp only
  cases hal : a.as_list with
  | some b =>
    refine ⟨b, rfl, fun h => ?_, fun h => ?_⟩
    · cases h
      rfl
    · cases b
      · exact absurd rfl h
      · simp
  | none =>
    refine ⟨_, rfl, by simp, fun _ => ?_⟩
    by_cases h1 : r0.subevent = some "Start" <;>
      by_cases h2 : r0.eventList = some "start" <;>
      by_cases h3 : strContains (strLower mtext) "will follow" = true <;>
      by_cases h4 : strStartsWith (strLower mtext) "added" = true ∧
        strEndsWith (strLower mtext) "to queue" = true <;>
      by_cases h5 : strEndsWith (strLower mtext) "successfully queued" =
        true ∧ fieldsGet a.fields "async" ≠ some (FieldValue.str "false") <;>
      simp [h1, h2, h3, h4, h5]

/-- C2 witness: a single free-text `Added to queue` reply is classified
multi even without any other signal. -/
theorem c2_multi_classification_witness :
    ∃ b, Action.multi
        { fields := [], as_list := none, responses := [msgAdded],
          responses_index := 0, result := none } = some b ∧
      ((none : Option Bool) = some false → b = false) ∧
      ((none : Option Bool) ≠ some false → (b = true ↔
        ((none : Option Bool) = some true ∨
         msgAdded.subevent = some "Start" ∨
         msgAdded.eventList = some "start" ∨
         strContains (strLower "Added to queue") "will follow" = true ∨
         (strStartsWith (strLower "Added to queue") "added" = true ∧
           strEndsWith (strLower "Added to queue") "to queue" = true) ∨
         (strEndsWith (strLower "Added to queue") "successfully queued" =
             true ∧
           fieldsGet [] "async" ≠ some (FieldValue.str "false"))))) :=
  c2_multi_classification
    { fields := [], as_list := none, responses := [msgAdded],
      responses_index := 0, result := none }
    msgAdded [] rfl "Added to queue" rfl

/-- C3: for a Request with a non-empty response buffer whose `multi`
value is defined, the `completed` classification is true iff the last
response's event name ends with `"Complete"`, or its subevent is `"End"`
or `"Exec"`, or its response status is one of `"Success"`, `"Error"`,
`"Fail"`, `"Failure"`, or the current `multi` value is false. -/
theorem c3_completed_classification (a : Action) (rN : Message)
    (hlast : a.responses.getLast? = some rN) (mb : Bool)
    (hmulti : Action.multi a = some mb) :
    ∃ c, Action.completed a = some c ∧
      (c = true ↔ (strEndsWith rN.event "Complete" = true ∨
        rN.subevent = some "End" ∨ rN.subevent = some "Exec" ∨
        rN.response = some "Success" ∨ rN.response = some "Error" ∨
        rN.response = some "Fail" ∨ rN.response = some "Failure" ∨
        mb = false)) := by
  unfold Action.completed
  rw [hlast, hmulti]
  dsimp only
  split_ifs with h1 h2 h3
  · exact ⟨true, rfl, by simp [h1]⟩
  · refine ⟨true, rfl, ?_⟩
    rcases h2 with h | h <;> simp [h]
  · refine ⟨true, rfl, ?_⟩
    rcases h3 with h | h | h | h <;> simp [h]
  · refine ⟨!mb, rfl, ?_⟩
    simp only [not_or] at h2 h3
    cases mb <;>
      simp [h1, h2.1, h2.2, h3.1, h3.2.1, h3.2.2.1, h3.2.2.2]

/-- C3 witness: a lone `StatusComplete` event on a pending multi request
completes it. -/
theorem c3_completed_classification_witness :
    ∃ c, Action.completed
        { fields := [], as_list := none, responses := [msgStart, msgComplete],
          responses_index := 0, result := none } = some c ∧
      (c = true ↔ (strEndsWith msgComplete.event "Complete" = true ∨
        msgComplete.subevent = some "End" ∨
        msgComplete.subevent = some "Exec" ∨
        msgComplete.response = some "Success" ∨
        msgComplete.response = some "Error" ∨
        msgComplete.response = some "Fail" ∨
        msgComplete.response = some "Failure" ∨
        true = false)) :=
  c3_completed_classification
    { fields := [], as_list := none, responses := [msgStart, msgComplete],
      responses_index := 0, result := none }
    msgComplete (by decide) true (by decide)

/-- C10: `multi` and `completed` are undefined on an empty buffer (they
index the first and last response), and — for every override value,
including one forcing single mode, since `a` here is arbitrary —
`multi` is defined exactly when the first buffered response carries a
text `message` attribute, which is read and lowercased before the
override flag is consulted. -/
theorem c10_classification_definedness (a : Action) :
    (a.responses = [] → Action.multi a = none ∧ Action.completed a = none) ∧
    (∀ r0 rest, a.responses = r0 :: rest →
      ((Action.multi a).isSome = true ↔ r0.message.isSome = true)) := by
  constructor
  · intro h
    unfold Action.multi Action.completed
    rw [h]
    exact ⟨rfl, rfl⟩
  · intro r0 rest h
    unfold Action.multi
    rw [h]
    simp only [List.head?_cons]
    cases hm : r0.message <;> simp [hm]

/-- C10 witness: with the override forcing single mode, `multi` is still
undefined when the first response lacks a `message` attribute, and
defined when it has one; both classifications are undefined on an empty
buffer. -/
theorem c10_classification_definedness_witness :
    (Action.multi
        { fields := [], as_list := some false, responses := [],
          responses_index := 0, result := none } = none ∧
      Action.completed
        { fields := [], as_list := some false, responses := [],
          responses_index := 0, result := none } = none) ∧
    ((Action.multi
        { fields := [], as_list := some false, responses := [msgNoText],
          responses_index := 0, result := none }).isSome = true ↔
      msgNoText.message.isSome = true) :=
  ⟨(c10_classification_definedness
      { fields := [], as_list := some false, responses := [],
        responses_index := 0, result := none }).1 rfl,
   (c10_classification_definedness
      { fields := [], as_list := some false, responses := [msgNoText],
        responses_index := 0, result := none }).2 msgNoText [] rfl⟩

/-- C1: `add_message` first appends the message unconditionally; then,
when the completed classification holds and the future is still pending,
it resolves with the ordered sequence of all buffered messages and
returns `True` ("completed") when `multi` and more than one message is
buffered, resolves with the single first buffered message and returns
`True` when not `multi`, and does not resolve but returns `False` ("not
yet completed") when `multi` with exactly one buffered message. -/
theorem c1_feed_resolution (a : Action) (m : Message) (mb cb : Bool)
    (hpend : a.result = none)
    (hm : Action.multi { a with responses := a.responses ++ [m] } = some mb)
    (hc : Action.completed { a with responses := a.responses ++ [m] } =
      some cb)
    (hcb : cb = true) :
    (a.add_message m).1.responses = a.responses ++ [m] ∧
    (mb = true → 1 < (a.responses ++ [m]).length →
      (a.add_message m).1.result =
        some (ActionResult.sequence (a.responses ++ [m])) ∧
      (a.add_message m).2 = FeedReturn.value (some true)) ∧
    (mb = false → ∀ r0 rs, a.responses ++ [m] = r0 :: rs →
      (a.add_message m).1.result = some (ActionResult.single r0) ∧
      (a.add_message m).2 = FeedReturn.value (some true)) ∧
    (mb = true → (a.responses ++ [m]).length = 1 →
      (a.add_message m).1.result = none ∧
      (a.add_message m).2 = FeedReturn.value (some false)) := by
  subst hcb
  refine ⟨(add_message_state a m).1, ?_, ?_, ?_⟩
  · intro hmb hlen
    subst hmb
    unfold Action.add_message
    dsimp only
    rw [hm, hc]
    dsimp only
    rw [if_pos ⟨rfl, hpend⟩, if_pos ⟨rfl, hlen⟩]
    exact ⟨rfl, rfl⟩
  · intro hmb r0 rs hsplit
    subst hmb
    unfold Action.add_message
    dsimp only
    rw [hm, hc]
    dsimp only
    rw [if_pos ⟨rfl, hpend⟩, if_neg (by simp), if_pos (by simp), hsplit]
    exact ⟨rfl, rfl⟩
  · intro hmb hlen
    subst hmb
    unfold Action.add_message
    dsimp only
    rw [hm, hc]
    dsimp only
    rw [if_pos ⟨rfl, hpend⟩, if_neg (by simp [hlen]), if_neg (by simp)]
    exact ⟨hpend, rfl⟩

/-- C1 witness: a lone `Response: Success` message resolves a pending
non-multi request to that single message and reports completed. -/
theorem c1_feed_resolution_witness :
    (actPending.add_message msgSuccess).1.result =
      some (ActionResult.single msgSuccess) ∧
    (actPending.add_message msgSuccess).2 = FeedReturn.value (some true) :=
  (c1_feed_resolution actPending msgSuccess false true rfl (by decide)
      (by decide) rfl).2.2.1 rfl msgSuccess [] rfl

/-- C6: feeding a message into an already resolved Request still appends
it to the buffer (and it is visible at the old buffer length, hence to
the stream interface), performs no further resolution, and returns the
no-op `None`. -/
theorem c6_feed_after_resolution (a : Action) (m : Message)
    (r : ActionResult) (hr : a.result = some r) (r0 : Message)
    (rest : List Message) (hresp : a.responses = r0 :: rest)
    (hmsg : r0.message.isSome = true) :
    (a.add_message m).1.responses = a.responses ++ [m] ∧
    (a.add_message m).1.result = some r ∧
    (a.add_message m).2 = FeedReturn.value none ∧
    (a.add_message m).1.responses.get? a.responses.length = some m := by
  refine ⟨(add_message_state a m).1, add_message_result_stable a m r hr,
    ?_, ?_⟩
  · obtain ⟨b, hm1⟩ := multi_defined
      { a with responses := a.responses ++ [m] } r0 (rest ++ [m])
      (by rw [hresp]; rfl) hmsg
    obtain ⟨c, hc1⟩ := completed_defined
      { a with responses := a.responses ++ [m] } b hm1 (by simp)
    unfold Action.add_message
    dsimp only
    rw [hm1, hc1]
    dsimp only
    rw [if_neg (by simp [hr])]
  · rw [(add_message_state a m).1]
    simp

/-- C6 witness: feeding a second `Success` message into the resolved
request grows the buffer without touching the result. -/
theorem c6_feed_after_resolution_witness :
    ((actPending.add_message msgSuccess).1.add_message msgSuccess).1.responses
        = (actPending.add_message msgSuccess).1.responses ++ [msgSuccess] ∧
    ((actPending.add_message msgSuccess).1.add_message
        msgSuccess).1.result = some (ActionResult.single msgSuccess) ∧
    ((actPending.add_message msgSuccess).1.add_message msgSuccess).2 =
      FeedReturn.value none ∧
    ((actPending.add_message msgSuccess).1.add_message
          msgSuccess).1.responses.get?
        (actPending.add_message msgSuccess).1.responses.length =
      some msgSuccess :=
  c6_feed_after_resolution (actPending.add_message msgSuccess).1 msgSuccess
    (ActionResult.single msgSuccess) (by decide) msgSuccess [] (by decide)
    (by decide)

/-- C5: one stream step returns the message at the cursor and advances
the cursor by one whenever the cursor is below the buffer length; it
signals end-of-stream iff the Request is resolved and the cursor has
caught up to the buffer length; feeding preserves arrival order, and the
stream yields exactly the buffered messages in that order. -/
theorem c5_stream_interface (a : Action) (ms : List Message) :
    (∀ h : a.responses_index < a.responses.length,
      a.anext = (StreamStep.yield (a.responses.get ⟨a.responses_index, h⟩),
        { a with responses_index := a.responses_index + 1 })) ∧
    ((a.anext).1 = StreamStep.stop ↔
      (a.result.isSome = true ∧ a.responses.length ≤ a.responses_index)) ∧
    ((Action.feedAll a ms).responses = a.responses ++ ms) ∧
    (a.responses_index = 0 →
      Action.streamRun a.responses.length a = a.responses) ∧
    (a.responses = [] → a.responses_index = 0 →
      Action.streamRun ms.length (Action.feedAll a ms) = ms) := by
  refine ⟨?_, ?_, (feedAll_state ms a).1, ?_, ?_⟩
  · intro h
    unfold Action.anext
    rw [dif_pos h]
  · unfold Action.anext
    split
    · next h =>
      constructor
      · intro hx
        exact absurd hx (by simp)
      · intro hx
        omega
    · next h =>
      split
      · next hs =>
        constructor
        · intro _
          exact ⟨hs, by omega⟩
        · intro _
          rfl
      · next hs =>
        constructor
        · intro hx
          exact absurd hx (by simp)
        · intro hx
          simp [hx.1] at hs
  · intro h0
    have hkey := streamRun_drop a.responses.length a (by omega)
    rw [hkey, h0]
    simp
  · intro hre h0
    have hst := feedAll_state ms a
    have hkey := streamRun_drop ms.length (Action.feedAll a ms)
      (by rw [hst.1, hst.2.1, hre, h0]; simp)
    rw [hkey, hst.1, hst.2.1, hre, h0]
    simp

/-- C5 witness: the stream over a request fed `Start` then `Complete`
yields exactly those two messages in arrival order, and a fresh pending
request does not signal end-of-stream. -/
theorem c5_stream_interface_witness :
    ((Action.feedAll actPending [msgStart, msgComplete]).responses =
      actPending.responses ++ [msgStart, msgComplete]) ∧
    Action.streamRun 2 (Action.feedAll actPending [msgStart, msgComplete]) =
      [msgStart, msgComplete] ∧
    ((actPending.anext).1 = StreamStep.stop ↔
      (actPending.result.isSome = true ∧
        actPending.responses.length ≤ actPending.responses_index)) :=
  ⟨(c5_stream_interface actPending [msgStart, msgComplete]).2.2.1,
   (c5_stream_interface actPending [msgStart, msgComplete]).2.2.2.2 rfl rfl,
   (c5_stream_interface actPending [msgStart, msgComplete]).2.1⟩

theorem fieldsGet_key_congr (fs : Fields) (k k' : String)
    (h : strLower k = strLower k') : fieldsGet fs k = fieldsGet fs k' := by
  unfold fieldsGet
  simp only [h]

theorem fieldsContains_key_congr (fs : Fields) (k k' : String)
    (h : strLower k = strLower k') :
    fieldsContains fs k = fieldsContains fs k' := by
  unfold fieldsContains
  simp only [h]

theorem low_actionid : strLower "ActionID" = "actionid" := rfl

theorem low_actionid' : strLower "actionid" = "actionid" := rfl

theorem low_action' : strLower "action" = "action" := rfl

theorem low_commandid' : strLower "commandid" = "commandid" := rfl

theorem low_action : strLower "Action" = "action" := rfl

theorem low_commandid : strLower "CommandID" = "commandid" := rfl

theorem setField_of_not_contains (fs : Fields) (k : String) (v : FieldValue)
    (h : fieldsContains fs k = false) : setField fs k v = fs ++ [(k, v)] := by
  unfold setField
  rw [h]
  rfl

theorem strStartsWith_of_data (s p : String) (r : List Char)
    (h : s.data = p.data ++ r) : strStartsWith s p = true := by
  unfold strStartsWith
  apply decide_eq_true
  rw [h]
  exact List.take_left _ _

theorem nextId_startsWith_category (g : IdGenerator) :
    strStartsWith g.nextId (g.category ++ "/") = true := by
  apply strStartsWith_of_data _ _
    (g.uid.data ++ ('/' :: ((toString g.generation).data ++
      ('/' :: (toString (g.seq + 1)).data))))
  unfold IdGenerator.nextId
  simp [String.data_append, List.append_assoc]

theorem init_state (fields : Fields) (asl : Option Bool) (g : IdGenerator) :
    (Action.init fields asl g).1.responses = [] ∧
    (Action.init fields asl g).1.responses_index = 0 ∧
    (Action.init fields asl g).1.result = none ∧
    (Action.init fields asl g).1.as_list = asl := by
  unfold Action.init
  split <;> exact ⟨rfl, rfl, rfl, rfl⟩

theorem init_fields_of_not_contains (fields : Fields) (asl : Option Bool)
    (g : IdGenerator) (h : fieldsContains fields "actionid" = false) :
    (Action.init fields asl g).1.fields =
      fields ++ [("ActionID", FieldValue.str g.nextId)] ∧
    (Action.init fields asl g).2 = (g.next).2 := by
  unfold Action.init
  rw [h]
  dsimp only
  constructor
  · apply setField_of_not_contains
    rw [fieldsContains_key_congr fields "ActionID" "actionid"
      (by rw [low_actionid, low_actionid'])]
    exact h
  · rfl

theorem init_fields_of_contains (fields : Fields) (asl : Option Bool)
    (g : IdGenerator) (h : fieldsContains fields "actionid" = true) :
    (Action.init fields asl g).1.fields = fields ∧
    (Action.init fields asl g).2 = g := by
  unfold Action.init
  rw [h]
  exact ⟨rfl, rfl⟩

/-- C9: construction of a Request assigns an `ActionID` from the issuer
exactly when the caller supplied none (leaving a supplied value
untouched), starts with an empty buffer, cursor 0 and a pending result,
and the `id` accessor returns the `ActionID` field.  The issued id always
carries the issuer's category prefix (the source uses the category
`"action"` issuer). -/
theorem c9_request_construction (fields : Fields) (asl : Option Bool)
    (g : IdGenerator) :
    ((Action.init fields asl g).1.responses = [] ∧
     (Action.init fields asl g).1.responses_index = 0 ∧
     (Action.init fields asl g).1.result = none) ∧
    (fieldsContains fields "actionid" = false →
      fieldsGet (Action.init fields asl g).1.fields "actionid" =
        some (FieldValue.str g.nextId) ∧
      Action.id (Action.init fields asl g).1 = FieldValue.str g.nextId ∧
      strStartsWith g.nextId (g.category ++ "/") = true ∧
      (Action.init fields asl g).2 = (g.next).2) ∧
    (fieldsContains fields "actionid" = true →
      (Action.init fields asl g).1.fields = fields ∧
      (Action.init fields asl g).2 = g) ∧
    (∀ v, fieldsGet fields "actionid" = some v →
      Action.id (Action.init fields asl g).1 = v) := by
  refine ⟨⟨(init_state fields asl g).1, (init_state fields asl g).2.1,
    (init_state fields asl g).2.2.1⟩, ?_, ?_, ?_⟩
  · intro h
    obtain ⟨hfield, hgen⟩ := init_fields_of_not_contains fields asl g h
    have hget : fieldsGet (Action.init fields asl g).1.fields "actionid" =
        some (FieldValue.str g.nextId) := by
      rw [hfield, fieldsGet_append_single,
        fieldsContains_false_get fields "actionid" h]
      simp [low_actionid, low_actionid']
    refine ⟨hget, ?_, nextId_startsWith_category g, hgen⟩
    unfold Action.id Action.attr
    rw [hget]
    rfl
  · exact init_fields_of_contains fields asl g
  · intro v hv
    by_cases h : fieldsContains fields "actionid" = true
    · obtain ⟨hfield, _⟩ := init_fields_of_contains fields asl g h
      unfold Action.id Action.attr
      rw [hfield, hv]
      rfl
    · rw [fieldsContains_false_get fields "actionid"
        (by simpa using h)] at hv
      cases hv

/-- C9 witness: the doctest scenario — `{'Action': 'Status'}` under a
freshly reset issuer gets `ActionID: action/myuuid/1/1`; a caller-supplied
`ActionID` is returned by the `id` accessor untouched. -/
theorem c9_request_construction_witness :
    (fieldsGet
        (Action.init [("Action", FieldValue.str "Status")] none genA).1.fields
        "actionid" = some (FieldValue.str genA.nextId) ∧
      Action.id (Action.init [("Action", FieldValue.str "Status")] none
        genA).1 = FieldValue.str genA.nextId ∧
      strStartsWith genA.nextId (genA.category ++ "/") = true ∧
      (Action.init [("Action", FieldValue.str "Status")] none genA).2 =
        (genA.next).2) ∧
    Action.id (Action.init [("ActionID", FieldValue.str "supplied")] none
      genA).1 = FieldValue.str "supplied" :=
  ⟨(c9_request_construction [("Action", FieldValue.str "Status")] none
      genA).2.1 (by decide),
   (c9_request_construction [("ActionID", FieldValue.str "supplied")] none
      genA).2.2.2 (FieldValue.str "supplied") (by decide)⟩

theorem fieldsGet_append_ne (fs : Fields) (k k' : String) (v : FieldValue)
    (hne : strLower k ≠ strLower k') :
    fieldsGet (fs ++ [(k, v)]) k' = fieldsGet fs k' := by
  rw [fieldsGet_append_single]
  cases hg : fieldsGet fs k' with
  | some w => simp [hg]
  | none => simp [hg, hne]

theorem fieldsGet_append_eq (fs : Fields) (k k' : String) (v : FieldValue)
    (heq : strLower k = strLower k') (hnone : fieldsGet fs k' = none) :
    fieldsGet (fs ++ [(k, v)]) k' = some v := by
  rw [fieldsGet_append_single, hnone]
  simp [heq]

theorem fieldsContains_append_ne (fs : Fields) (k k' : String)
    (v : FieldValue) (hne : strLower k ≠ strLower k') :
    fieldsContains (fs ++ [(k, v)]) k' = fieldsContains fs k' := by
  rw [fieldsContains_append_single]
  simp [hne]

theorem fieldsGet_none_contains (fs : Fields) (k : String)
    (hg : fieldsGet fs k = none) : fieldsContains fs k = false := by
  by_cases h : fieldsContains fs k = true
  · have := fieldsContains_true_get fs k h
    rw [hg] at this
    cases this
  · simpa using h

theorem init_get_key (fields : Fields) (asl : Option Bool)
    (g : IdGenerator) (k : String)
    (hne : strLower "ActionID" ≠ strLower k) :
    fieldsGet (Action.init fields asl g).1.fields k = fieldsGet fields k ∧
    fieldsContains (Action.init fields asl g).1.fields k =
      fieldsContains fields k := by
  by_cases h : fieldsContains fields "actionid" = true
  · rw [(init_fields_of_contains fields asl g h).1]
    exact ⟨rfl, rfl⟩
  · rw [(init_fields_of_not_contains fields asl g (by simpa using h)).1]
    exact ⟨fieldsGet_append_ne fields "ActionID" k _ hne,
      fieldsContains_append_ne fields "ActionID" k _ hne⟩

theorem fieldsGet_some_contains (fs : Fields) (k : String) (v : FieldValue)
    (h : fieldsGet fs k = some v) : fieldsContains fs k = true := by
  by_cases hc : fieldsContains fs k = true
  · exact hc
  · rw [fieldsContains_false_get fs k (by simpa using hc)] at h
    cases h

theorem setField_append_via (fs : Fields) (k k' : String) (v : FieldValue)
    (hlow : strLower k = strLower k')
    (h : fieldsContains fs k' = false) :
    setField fs k v = fs ++ [(k, v)] :=
  setField_of_not_contains fs k v
    ((fieldsContains_key_congr fs k k' hlow).trans h)

theorem init_get_actionid (fields : Fields) (asl : Option Bool)
    (g : IdGenerator) (h : fieldsContains fields "actionid" = false) :
    fieldsGet (Action.init fields asl g).1.fields "actionid" =
      some (FieldValue.str g.nextId) := by
  rw [(init_fields_of_not_contains fields asl g h).1]
  exact fieldsGet_append_eq _ _ _ _ (by rw [low_actionid, low_actionid'])
    (fieldsContains_false_get fields _ h)

theorem command_init_fields_desc (fields : Fields) (asl : Option Bool)
    (ag cg : IdGenerator) :
    (Command.init fields asl ag cg).1.fields =
      (let af := (Action.init fields asl ag).1.fields
       let f1 := if fieldsContains fields "action" then af
                 else af ++ [("Action", FieldValue.str "Command")]
       if fieldsContains fields "commandid" then f1
       else f1 ++ [("CommandID", FieldValue.str cg.nextId)]) := by
  have hA := (init_get_key fields asl ag "action" (by decide)).2
  have hC := (init_get_key fields asl ag "commandid" (by decide)).2
  unfold Command.init
  dsimp only
  by_cases h1 : fieldsContains fields "action" = true
  · have h1c : fieldsContains (Action.init fields asl ag).1.fields
        "action" = true := hA.trans h1
    rw [if_pos h1c, if_pos h1]
    by_cases h2 : fieldsContains fields "commandid" = true
    · have h2c : fieldsContains (Action.init fields asl ag).1.fields
          "commandid" = true := hC.trans h2
      rw [if_pos h2c, if_pos h2]
    · have h2' : fieldsContains fields "commandid" = false := by
        simpa using h2
      have h2c : fieldsContains (Action.init fields asl ag).1.fields
          "commandid" = false := hC.trans h2'
      have hn2c : ¬(fieldsContains (Action.init fields asl ag).1.fields
          "commandid" = true) := by simp [h2c]
      have hn2 : ¬(fieldsContains fields "commandid" = true) := by
        simp [h2']
      rw [if_neg hn2c, if_neg hn2,
        setField_append_via _ "CommandID" "commandid" _
          (by rw [low_commandid, low_commandid']) h2c]
      rfl
  · have h1' : fieldsContains fields "action" = false := by simpa using h1
    have h1c : fieldsContains (Action.init fields asl ag).1.fields
        "action" = false := hA.trans h1'
    have hn1c : ¬(fieldsContains (Action.init fields asl ag).1.fields
        "action" = true) := by simp [h1c]
    have hn1 : ¬(fieldsContains fields "action" = true) := by simp [h1']
    rw [if_neg hn1c, if_neg hn1,
      setField_append_via _ "Action" "action" _
        (by rw [low_action, low_action']) h1c]
    by_cases h2 : fieldsContains fields "commandid" = true
    · have h2c : fieldsContains ((Action.init fields asl ag).1.fields ++
          [("Action", FieldValue.str "Command")]) "commandid" = true :=
        (fieldsContains_append_ne _ "Action" "commandid" _
          (by decide)).trans (hC.trans h2)
      rw [if_pos h2c, if_pos h2]
    · have h2' : fieldsContains fields "commandid" = false := by
        simpa using h2
      have h2c : fieldsContains ((Action.init fields asl ag).1.fields ++
          [("Action", FieldValue.str "Command")]) "commandid" = false :=
        (fieldsContains_append_ne _ "Action" "commandid" _
          (by decide)).trans (hC.trans h2')
      have hn2c : ¬(fieldsContains ((Action.init fields asl ag).1.fields ++
          [("Action", FieldValue.str "Command")]) "commandid" = true) := by
        simp [h2c]
      have hn2 : ¬(fieldsContains fields "commandid" = true) := by
        simp [h2']
      rw [if_neg hn2c, if_neg hn2,
        setField_append_via _ "CommandID" "commandid" _
          (by rw [low_commandid, low_commandid']) h2c]
      rfl

/-- C8: Command construction sets `Action` to the literal `"Command"`
when absent, assigns a `CommandID` from the command-category issuer
unless the caller supplied one; the `id` accessor on a Command returns
the `CommandID` (not the inherited Request id, from which it differs
under normal construction), and the separate `action_id` accessor
returns the Request-level id, or `none` when that id is unset/empty. -/
theorem c8_command_construction (fields : Fields) (asl : Option Bool)
    (ag cg : IdGenerator) :
    (fieldsContains fields "action" = false →
      fieldsGet (Command.init fields asl ag cg).1.fields "action" =
        some (FieldValue.str "Command")) ∧
    (fieldsContains fields "commandid" = false →
      fieldsGet (Command.init fields asl ag cg).1.fields "commandid" =
        some (FieldValue.str cg.nextId) ∧
      Command.id (Command.init fields asl ag cg).1 =
        FieldValue.str cg.nextId ∧
      strStartsWith cg.nextId (cg.category ++ "/") = true) ∧
    (∀ v, fieldsGet fields "commandid" = some v →
      Command.id (Command.init fields asl ag cg).1 = v) ∧
    (fieldsContains fields "actionid" = false →
      Command.action_id (Command.init fields asl ag cg).1 =
        some (FieldValue.str ag.nextId)) ∧
    (fieldsGet fields "actionid" = some (FieldValue.str "") →
      Command.action_id (Command.init fields asl ag cg).1 = none) ∧
    (ag.category = "action" → cg.category = "command" →
      fieldsContains fields "actionid" = false →
      fieldsContains fields "commandid" = false →
      Command.id (Command.init fields asl ag cg).1 ≠
        Action.id (Command.init fields asl ag cg).1) := by
  have hdesc := command_init_fields_desc fields asl ag cg
  dsimp only at hdesc
  have hCg := (init_get_key fields asl ag "commandid" (by decide)).1
  have hAg := (init_get_key fields asl ag "action" (by decide)).1
  have hgetCmd : fieldsContains fields "commandid" = false →
      fieldsGet (Command.init fields asl ag cg).1.fields "commandid" =
        some (FieldValue.str cg.nextId) := by
    intro hCmd
    have hnone : fieldsGet (Action.init fields asl ag).1.fields
        "commandid" = none := by
      rw [hCg]
      exact fieldsContains_false_get fields "commandid" hCmd
    rw [hdesc, if_neg (show ¬(fieldsContains fields "commandid" = true) by
      simp [hCmd])]
    by_cases hAct : fieldsContains fields "action" = true
    · rw [if_pos hAct]
      exact fieldsGet_append_eq _ _ _ _
        (by rw [low_commandid, low_commandid']) hnone
    · rw [if_neg hAct]
      refine fieldsGet_append_eq _ _ _ _
        (by rw [low_commandid, low_commandid']) ?_
      rw [fieldsGet_append_ne _ "Action" _ _ (by decide)]
      exact hnone
  have hgetActid : fieldsGet (Command.init fields asl ag cg).1.fields
      "actionid" = fieldsGet (Action.init fields asl ag).1.fields
        "actionid" := by
    rw [hdesc]
    by_cases hCmd : fieldsContains fields "commandid" = true
    · rw [if_pos hCmd]
      by_cases hAct : fieldsContains fields "action" = true
      · rw [if_pos hAct]
      · rw [if_neg hAct, fieldsGet_append_ne _ "Action" _ _ (by decide)]
    · rw [if_neg hCmd, fieldsGet_append_ne _ "CommandID" _ _ (by decide)]
      by_cases hAct : fieldsContains fields "action" = true
      · rw [if_pos hAct]
      · rw [if_neg hAct, fieldsGet_append_ne _ "Action" _ _ (by decide)]
  refine ⟨?_, ?_, ?_, ?_, ?_, ?_⟩
  · intro hAct
    have hnone : fieldsGet (Action.init fields asl ag).1.fields
        "action" = none := by
      rw [hAg]
      exact fieldsContains_false_get fields "action" hAct
    rw [hdesc]
    by_cases hCmd : fieldsContains fields "commandid" = true
    · rw [if_pos hCmd, if_neg (show ¬(fieldsContains fields "action" = true)
        by simp [hAct])]
      exact fieldsGet_append_eq _ _ _ _ (by rw [low_action, low_action'])
        hnone
    · rw [if_neg hCmd, fieldsGet_append_ne _ "CommandID" _ _ (by decide),
        if_neg (show ¬(fieldsContains fields "action" = true) by
          simp [hAct])]
      exact fieldsGet_append_eq _ _ _ _ (by rw [low_action, low_action'])
        hnone
  · intro hCmd
    have hget := hgetCmd hCmd
    refine ⟨hget, ?_, nextId_startsWith_category cg⟩
    unfold Command.id Action.attr
    rw [hget]
    rfl
  · intro v hv
    have hsome : fieldsContains fields "commandid" = true :=
      fieldsGet_some_contains fields "commandid" v hv
    have hget : fieldsGet (Command.init fields asl ag cg).1.fields
        "commandid" = some v := by
      rw [hdesc, if_pos hsome]
      by_cases hAct : fieldsContains fields "action" = true
      · rw [if_pos hAct, hCg]
        exact hv
      · rw [if_neg hAct, fieldsGet_append_ne _ "Action" _ _ (by decide),
          hCg]
        exact hv
    unfold Command.id Action.attr
    rw [hget]
    rfl
  · intro hActid
    have hget : fieldsGet (Command.init fields asl ag cg).1.fields
        "actionid" = some (FieldValue.str ag.nextId) := by
      rw [hgetActid]
      exact init_get_actionid fields asl ag hActid
    unfold Command.action_id Action.attr
    rw [hget]
    simp [FieldValue.isFalsy, nextId_ne_empty ag]
  · intro hEmpty
    have hc : fieldsContains fields "actionid" = true :=
      fieldsGet_some_contains fields "actionid" _ hEmpty
    have hget : fieldsGet (Command.init fields asl ag cg).1.fields
        "actionid" = some (FieldValue.str "") := by
      rw [hgetActid, (init_fields_of_contains fields asl ag hc).1]
      exact hEmpty
    unfold Command.action_id Action.attr
    rw [hget]
    simp [FieldValue.isFalsy]
  · intro hagc hcgc hActid hCmd
    have hid : Command.id (Command.init fields asl ag cg).1 =
        FieldValue.str cg.nextId := by
      unfold Command.id Action.attr
      rw [hgetCmd hCmd]
      rfl
    have haid : Action.id (Command.init fields asl ag cg).1 =
        FieldValue.str ag.nextId := by
      unfold Action.id Action.attr
      rw [hgetActid, init_get_actionid fields asl ag hActid]
      rfl
    rw [hid, haid]
    intro h
    exact nextId_category_ne ag cg hagc hcgc
      (by injection h with h; rw [h])

/-- C8 witness: the doctest scenario — `Command {'Command': 'Do
something'}` under freshly reset issuers gets `Action: Command`,
`CommandID: command/myuuid/1/1`, the `id` accessor returns the
`CommandID`, and `action_id` returns the auto-assigned ActionID. -/
theorem c8_command_construction_witness :
    fieldsGet (Command.init [("Command", FieldValue.str "Do something")]
        none genA genC).1.fields "action" =
      some (FieldValue.str "Command") ∧
    Command.id (Command.init [("Command", FieldValue.str "Do something")]
        none genA genC).1 = FieldValue.str genC.nextId ∧
    Command.action_id (Command.init
        [("Command", FieldValue.str "Do something")] none genA genC).1 =
      some (FieldValue.str genA.nextId) ∧
    Command.id (Command.init [("Command", FieldValue.str "Do something")]
        none genA genC).1 ≠
      Action.id (Command.init [("Command", FieldValue.str "Do something")]
        none genA genC).1 :=
  ⟨(c8_command_construction [("Command", FieldValue.str "Do something")]
      none genA genC).1 (by decide),
   ((c8_command_construction [("Command", FieldValue.str "Do something")]
      none genA genC).2.1 (by decide)).2.1,
   (c8_command_construction [("Command", FieldValue.str "Do something")]
      none genA genC).2.2.2.1 (by decide),
   (c8_command_construction [("Command", FieldValue.str "Do something")]
      none genA genC).2.2.2.2.2 rfl rfl (by decide) (by decide)⟩

theorem applyOp_preserves (s : Action) (op : Op) :
    (s.applyOp op).fields = s.fields ∧
    (∃ u, (s.applyOp op).responses = s.responses ++ u) ∧
    (∀ r, s.result = some r → (s.applyOp op).result = some r) ∧
    s.responses_index ≤ (s.applyOp op).responses_index ∧
    (s.responses_index ≤ s.responses.length →
      (s.applyOp op).responses_index ≤ (s.applyOp op).responses.length) := by
  cases op with
  | feed m =>
    have hs := add_message_state s m
    dsimp only [Action.applyOp]
    refine ⟨hs.2.2.1, ⟨[m], hs.1⟩,
      fun r h => add_message_result_stable s m r h,
      le_of_eq hs.2.1.symm, fun h => ?_⟩
    rw [hs.1, hs.2.1]
    simp only [List.length_append, List.length_cons, List.length_nil]
    omega
  | next =>
    have hs := anext_state s
    dsimp only [Action.applyOp]
    exact ⟨hs.1.2.1, ⟨[], by simp [hs.1.1]⟩,
      fun r h => by rw [hs.1.2.2.1]; exact h, hs.2.1, hs.2.2⟩

theorem applyOps_preserves (ops : List Op) : ∀ s : Action,
    (Action.applyOps s ops).fields = s.fields ∧
    (∃ t, (Action.applyOps s ops).responses = s.responses ++ t) ∧
    (∀ r, s.result = some r → (Action.applyOps s ops).result = some r) ∧
    s.responses_index ≤ (Action.applyOps s ops).responses_index ∧
    (s.responses_index ≤ s.responses.length →
      (Action.applyOps s ops).responses_index ≤
        (Action.applyOps s ops).responses.length) := by
  induction ops with
  | nil =>
    intro s
    exact ⟨rfl, ⟨[], by simp [Action.applyOps]⟩, fun r h => h,
      Nat.le_refl _, fun h => h⟩
  | cons op rest ih =>
    intro s
    obtain ⟨hf1, ⟨u, hu⟩, hres1, hidx1, hbound1⟩ := applyOp_preserves s op
    obtain ⟨hf2, ⟨t, ht⟩, hres2, hidx2, hbound2⟩ := ih (s.applyOp op)
    have hfold : Action.applyOps s (op :: rest) =
        Action.applyOps (s.applyOp op) rest := by
      unfold Action.applyOps
      rw [List.foldl_cons]
    rw [hfold]
    exact ⟨hf2.trans hf1, ⟨u ++ t, by rw [ht, hu, List.append_assoc]⟩,
      fun r h => hres2 r (hres1 r h), Nat.le_trans hidx1 hidx2,
      fun h => hbound2 (hbound1 h)⟩

theorem id_of_fields_eq (a b : Action) (h : a.fields = b.fields) :
    Action.id a = Action.id b := by
  unfold Action.id Action.attr
  rw [h]

/-- C7: along any run of operations (feeds and stream steps) from a
constructed Request — `pre` then `suf` expose every intermediate state —
the id accessor never changes; the auto-assigned id comes from the issuer
and is non-empty; the buffer only grows; a resolved result never changes
(and the state starts pending); and the cursor is monotone and bounded by
the buffer length. -/
theorem c7_state_invariants (fields : Fields) (asl : Option Bool)
    (g : IdGenerator) (pre suf : List Op) :
    Action.id (Action.applyOps
        (Action.applyOps (Action.init fields asl g).1 pre) suf) =
      Action.id (Action.init fields asl g).1 ∧
    (fieldsContains fields "actionid" = false →
      Action.id (Action.init fields asl g).1 = FieldValue.str g.nextId ∧
      Action.id (Action.init fields asl g).1 ≠ FieldValue.str "") ∧
    (Action.init fields asl g).1.result = none ∧
    (∃ t, (Action.applyOps
        (Action.applyOps (Action.init fields asl g).1 pre) suf).responses =
      (Action.applyOps (Action.init fields asl g).1 pre).responses ++ t) ∧
    (∀ r, (Action.applyOps (Action.init fields asl g).1 pre).result =
        some r →
      (Action.applyOps
        (Action.applyOps (Action.init fields asl g).1 pre) suf).result =
        some r) ∧
    (Action.applyOps (Action.init fields asl g).1 pre).responses_index ≤
      (Action.applyOps (Action.applyOps (Action.init fields asl g).1 pre)
        suf).responses_index ∧
    (Action.applyOps (Action.applyOps (Action.init fields asl g).1 pre)
        suf).responses_index ≤
      (Action.applyOps (Action.applyOps (Action.init fields asl g).1 pre)
        suf).responses.length := by
  have hinit := init_state fields asl g
  have hpre := applyOps_preserves pre (Action.init fields asl g).1
  have hsuf := applyOps_preserves suf
    (Action.applyOps (Action.init fields asl g).1 pre)
  refine ⟨?_, ?_, hinit.2.2.1, hsuf.2.1, hsuf.2.2.1, hsuf.2.2.2.1, ?_⟩
  · exact id_of_fields_eq _ _ (hsuf.1.trans hpre.1)
  · intro h
    have hid : Action.id (Action.init fields asl g).1 =
        FieldValue.str g.nextId := by
      unfold Action.id Action.attr
      rw [init_get_actionid fields asl g h]
      rfl
    refine ⟨hid, ?_⟩
    rw [hid]
    intro hcontr
    exact nextId_ne_empty g (by injection hcontr)
  · refine hsuf.2.2.2.2 (hpre.2.2.2.2 ?_)
    rw [hinit.1, hinit.2.1]
    exact Nat.le_refl 0

/-- C7 witness: a concrete run — feed `Start`, take a stream step, feed
`Complete` — preserves the id, grows the buffer, keeps the resolved
result, and keeps the cursor within bounds. -/
theorem c7_state_invariants_witness :
    Action.id (Action.applyOps
        (Action.applyOps (Action.init [("Action", FieldValue.str "Status")]
          none genA).1 [Op.feed msgStart, Op.next])
        [Op.feed msgComplete]) =
      Action.id (Action.init [("Action", FieldValue.str "Status")] none
        genA).1 ∧
    Action.id (Action.init [("Action", FieldValue.str "Status")] none
        genA).1 = FieldValue.str genA.nextId ∧
    (Action.applyOps
        (Action.applyOps (Action.init [("Action", FieldValue.str "Status")]
          none genA).1 [Op.feed msgStart, Op.next])
        [Op.feed msgComplete]).responses_index ≤
      (Action.applyOps
        (Action.applyOps (Action.init [("Action", FieldValue.str "Status")]
          none genA).1 [Op.feed msgStart, Op.next])
        [Op.feed msgComplete]).responses.length :=
  ⟨(c7_state_invariants [("Action", FieldValue.str "Status")] none genA
      [Op.feed msgStart, Op.next] [Op.feed msgComplete]).1,
   ((c7_state_invariants [("Action", FieldValue.str "Status")] none genA
      [Op.feed msgStart, Op.next] [Op.feed msgComplete]).2.1
      (by decide)).1,
   (c7_state_invariants [("Action", FieldValue.str "Status")] none genA
      [Op.feed msgStart, Op.next]
      [Op.feed msgComplete]).2.2.2.2.2.2⟩

/-- C7 counterexample: the claim's "id … never empty" fails — a caller
may construct a Request supplying an empty `ActionID`; the key is present
so no id is auto-assigned, and the id accessor returns the empty
string. -/
theorem c7_state_invariants_counterexample :
    Action.id (Action.init [("ActionID", FieldValue.str "")] none
      genA).1 = FieldValue.str "" := by
  decide

/-- C4: serialization emits one `Key: value` line per scalar field and
one line per element for list-valued fields, with the bindings in
case-insensitive sorted key order, terminated by the line terminator and
a trailing blank terminator line; on mappings with pairwise-distinct
(case-insensitive) keys the output is a deterministic function of the
mapping's contents, independent of insertion order. -/
theorem c4_serialization (a b : Action) (hperm : a.fields.Perm b.fields)
    (hnd : (a.fields.map (fun p => strLower p.1)).Nodup) :
    Action.toWireText a = Action.toWireText b ∧
    Action.toWireText a = joinEOL (wireLines (sortFields a.fields) ++
      [EOL]) ∧
    (sortFields a.fields).Pairwise (fun p q => fieldLe p q = true) ∧
    (sortFields a.fields).Perm a.fields ∧
    (wireLines (sortFields a.fields) ≠ [] →
      Action.toWireText a =
        joinEOL (wireLines (sortFields a.fields)) ++ EOL ++ EOL) := by
  refine ⟨?_, rfl, sortFields_sorted _, sortFields_perm _, ?_⟩
  · unfold Action.toWireText
    rw [sortFields_congr a.fields b.fields hperm hnd]
  · intro hne
    unfold Action.toWireText
    rw [joinEOL_append_single _ _ hne]

/-- C4 witness: the doctest `SIPnotify` action and an insertion-reordered
copy serialize to the same wire text — three sorted lines (`Action`,
`ActionID`, then one line per `Variable` element) plus the terminators. -/
theorem c4_serialization_witness :
    Action.toWireText
        { fields := [("Action", FieldValue.str "SIPnotify"),
            ("ActionID", FieldValue.str "action/myuuid/1/2"),
            ("Variable", FieldValue.list ["1", "2"])],
          as_list := none, responses := [], responses_index := 0,
          result := none } =
      Action.toWireText
        { fields := [("Variable", FieldValue.list ["1", "2"]),
            ("ActionID", FieldValue.str "action/myuuid/1/2"),
            ("Action", FieldValue.str "SIPnotify")],
          as_list := none, responses := [], responses_index := 0,
          result := none } ∧
    Action.toWireText
        { fields := [("Action", FieldValue.str "SIPnotify"),
            ("ActionID", FieldValue.str "action/myuuid/1/2"),
            ("Variable", FieldValue.list ["1", "2"])],
          as_list := none, responses := [], responses_index := 0,
          result := none } =
      "Action: SIPnotify" ++ EOL ++ "ActionID: action/myuuid/1/2" ++ EOL ++
        "Variable: 1" ++ EOL ++ "Variable: 2" ++ EOL ++ EOL :=
  ⟨(c4_serialization
      { fields := [("Action", FieldValue.str "SIPnotify"),
          ("ActionID", FieldValue.str "action/myuuid/1/2"),
          ("Variable", FieldValue.list ["1", "2"])],
        as_list := none, responses := [], responses_index := 0,
        result := none }
      { fields := [("Variable", FieldValue.list ["1", "2"]),
          ("ActionID", FieldValue.str "action/myuuid/1/2"),
          ("Action", FieldValue.str "SIPnotify")],
        as_list := none, responses := [], responses_index := 0,
        result := none }
      (by decide) (by decide)).1,
   by decide⟩

end Panoramisk
